/-
Verification of the private-blockchain core (`src/blockchain.js`) against its
specification. The code is shallowly embedded: the chain state is a list of
blocks plus a cached height, JS exceptions become `Except`, JS timestamps and
the SHA-256 digest are parameters. The `Block` class lives in `block.js`, which
is not part of the sources; its behaviour (constructor defaults, `validate`,
`getBData`) is modelled from the specification where marked.
-/
import Mathlib

/-- The logical payload (`body`) of a block: either the fixed genesis marker
(data = Genesis Block) or a star record (owner = address, data = star). -/
inductive BData where
  | genesis
  | star (owner : String) (data : String)
deriving DecidableEq, Repr

/-- The fields of a block that participate in hashing: everything except the
`hash` field itself (which is still `null` when the digest is taken at
sealing time, and is nulled again by `validate` when recomputing). -/
structure BlockFields where
  height : Int
  time : String
  body : BData
  previousBlockHash : Option String
deriving DecidableEq, Repr

/-- A sealed block: the hashed fields plus the stored digest.
`previousBlockHash = none` models the JS `null` of the genesis block. -/
structure Block where
  height : Int
  time : String
  body : BData
  previousBlockHash : Option String
  hash : String
deriving DecidableEq, Repr

instance : Inhabited Block := ⟨⟨0, "", BData.genesis, none, ""⟩⟩

/-- The hashed fields of a block (the block minus its `hash`). -/
def Block.fields (b : Block) : BlockFields :=
  ⟨b.height, b.time, b.body, b.previousBlockHash⟩

/-- Modelled from the spec: `Block.validate` of the missing `block.js`
(`verifySelf`) recomputes the digest from the stored fields excluding `hash`
and compares it with the stored `hash`. `H` abstracts the SHA-256 digest of
the canonical serialization. -/
def blockValidate (H : BlockFields → String) (b : Block) : Bool :=
  b.hash == H b.fields

/-- Modelled from the spec: `Block.getBData` of the missing `block.js` decodes
the stored payload back to the logical payload structure. -/
def getBData (b : Block) : BData :=
  b.body

/-- The `owner` field read off a decoded payload; the genesis marker has no
owner (JS `undefined`, never equal to an address string). -/
def BData.owner : BData → Option String
  | BData.genesis => none
  | BData.star o _ => some o

/-- The mutable state of the `Blockchain` class: `this.chain` and
`this.height`. -/
structure ChainState where
  chain : List Block
  height : Int
deriving DecidableEq, Repr

/-- The state set up by the `Blockchain` constructor before
`initializeChain` runs: `this.chain = []; this.height = -1`. -/
def constructorState : ChainState :=
  ⟨[], -1⟩

/-- Errors pushed by `validateChain`: a block whose self-check fails, or a
block whose `previousBlockHash` differs from the `hash` of its predecessor.
Each carries the hash of the offending block (as in the JS error messages). -/
inductive ChainError where
  | corruptBlock (hash : String)
  | brokenLink (hash : String)
deriving DecidableEq, Repr

/-- `validateChain`: for `i = 1 .. this.height`, push a corrupt-block error if
`this.chain[i].validate()` fails, then a broken-link error if
`this.chain[i].previousBlockHash !== this.chain[i-1].hash`, accumulating into
`errorLog`. -/
def validateChain (H : BlockFields → String) (s : ChainState) : List ChainError :=
  (List.range' 1 s.height.toNat).foldl
    (fun errorLog i =>
      let errorLog1 :=
        if ¬ blockValidate H (s.chain.getD i default) then
          errorLog ++ [ChainError.corruptBlock (s.chain.getD i default).hash]
        else errorLog
      if (s.chain.getD i default).previousBlockHash ≠ some (s.chain.getD (i - 1) default).hash then
        errorLog1 ++ [ChainError.brokenLink (s.chain.getD i default).hash]
      else errorLog1)
    []

/-- `_addBlock(block)`: validate the whole chain (throw a chain-is-invalid
error if any defect is found), then increment `this.height`, set the fields
`height`, `time` and — when the new height is positive — `previousBlockHash`
from the last block, seal it with the digest of its serialized fields (its
`hash` field still being `null` from the `Block` constructor), and push it.
The fresh block is given by its `body` payload; `time` is the JS wall-clock
string, passed as a parameter. -/
def _addBlock (H : BlockFields → String) (s : ChainState) (body : BData)
    (time : String) : Except String (ChainState × Block) :=
  let chainErrors := validateChain H s
  if chainErrors.length > 0 then
    Except.error "The chain is invalid"
  else
    let newHeight := s.height + 1
    let prevHash : Option String :=
      if newHeight > 0 then some ((s.chain.getD (newHeight - 1).toNat default).hash)
      else none
    let b : Block := ⟨newHeight, time, body, prevHash, H ⟨newHeight, time, body, prevHash⟩⟩
    Except.ok (⟨s.chain ++ [b], newHeight⟩, b)

/-- `initializeChain`: if `this.height === -1`, append the genesis block
(payload data = Genesis Block) through `_addBlock`; otherwise do nothing. -/
def initializeChain (H : BlockFields → String) (s : ChainState) (time : String) : ChainState :=
  if s.height = -1 then
    match _addBlock H s BData.genesis time with
    | Except.ok (s', _) => s'
    | Except.error _ => s
  else s

/-- The state produced by `new Blockchain()` (constructor followed by
`initializeChain`), with the wall-clock string at genesis time as parameter. -/
def newBlockchain (H : BlockFields → String) (time : String) : ChainState :=
  initializeChain H constructorState time

/-- The genesis block as sealed by the construction path. -/
def genesisBlock (H : BlockFields → String) (time : String) : Block :=
  ⟨0, time, BData.genesis, none, H ⟨0, time, BData.genesis, none⟩⟩

/-- Chain states reachable by `n` successful appends: the constructed
blockchain (one append: the genesis block), extended by further successful
`_addBlock` calls (as performed by `submitStar`). -/
inductive ReachableN (H : BlockFields → String) : Nat → ChainState → Prop where
  | init (time : String) : ReachableN H 1 (newBlockchain H time)
  | step (n : Nat) (s : ChainState) (body : BData) (time : String)
      (s' : ChainState) (b : Block) :
      ReachableN H n s → _addBlock H s body time = Except.ok (s', b) →
      ReachableN H (n + 1) s'

/-- Modelled from the spec (and the comment on line 113 of the source):
JS `parseInt` without an explicit radix, as applied to the second
colon-delimited field of the message: skip leading whitespace, read an optional sign, then
either a `0x`/`0X`-prefixed hexadecimal digit run or a decimal digit run;
`none` models `NaN` (no digits found, or the field was absent —
`parseInt(undefined)` is also `NaN`). -/
def parseIntJS (str : String) : Option Int :=
  let cs := str.toList.dropWhile Char.isWhitespace
  let signed : Int × List Char :=
    match cs with
    | '-' :: t => (-1, t)
    | '+' :: t => (1, t)
    | t => (1, t)
  let hexVal : Char → Nat := fun c =>
    if c.isDigit then c.toNat - 48
    else if 'a' ≤ c ∧ c ≤ 'f' then c.toNat - 87
    else c.toNat - 55
  let isHexDigit : Char → Bool := fun c =>
    c.isDigit || ('a' ≤ c && c ≤ 'f') || ('A' ≤ c && c ≤ 'F')
  match signed.2 with
  | '0' :: 'x' :: t | '0' :: 'X' :: t =>
    let ds := t.takeWhile isHexDigit
    if ds.isEmpty then none
    else some (signed.1 * (ds.foldl (fun n c => n * 16 + hexVal c) 0 : Nat))
  | t =>
    let ds := t.takeWhile Char.isDigit
    if ds.isEmpty then none
    else some (signed.1 * (ds.foldl (fun n c => n * 10 + (c.toNat - 48)) 0 : Nat))

/-- JS `String.prototype.split` with separator colon: the fields between the
colons of the string, empty fields included. -/
def splitFields : List Char → List (List Char)
  | [] => [[]]
  | c :: rest =>
    if c = ':' then [] :: splitFields rest
    else
      match splitFields rest with
      | f :: fs => (c :: f) :: fs
      | [] => [[c]]

/-- The embedded timestamp of a challenge message: JS `parseInt` applied to
the second colon-delimited field. A missing second field is JS `undefined`,
on which `parseInt` returns `NaN` (here: `none`). -/
def messageTime (message : String) : Option Int :=
  parseIntJS (String.mk ((splitFields message.toList).getD 1 []))

/-- The freshness test `currentTime - messageTime > 300`: a JS comparison
involving `NaN` is `false`, so a non-numeric parsed timestamp never trips it. -/
def timedOut (currentTime : Int) (mt : Option Int) : Bool :=
  match mt with
  | some t => currentTime - t > 300
  | none => false

/-- The errors `submitStar` can reject with (the three `throw` sites of the
source: the freshness check, signature verification, and `_addBlock`). -/
inductive SubmitError where
  | timedOut
  | verifyFailed
  | chainInvalid
deriving DecidableEq, Repr

/-- `submitStar(address, message, signature, star)`: parse the embedded time,
reject with a message-timed-out error if more than 300 seconds have elapsed,
reject with a verification error if `bitcoinMessage.verify` (the
external oracle `verify`) fails, otherwise append a `{owner, data}` block via
`_addBlock` and return it. The returned state is the post-call `this`: on
every rejection path the throw happens before any mutation, so it is the
input state. `currentTime` and `blockTime` are the wall-clock readings. -/
def submitStar (H : BlockFields → String) (verify : String → String → String → Bool)
    (s : ChainState) (address message signature star : String)
    (currentTime : Int) (blockTime : String) : ChainState × Except SubmitError Block :=
  if timedOut currentTime (messageTime message) then
    (s, Except.error SubmitError.timedOut)
  else if ¬ verify message address signature then
    (s, Except.error SubmitError.verifyFailed)
  else
    match _addBlock H s (BData.star address star) blockTime with
    | Except.error _ => (s, Except.error SubmitError.chainInvalid)
    | Except.ok (s', b) => (s', Except.ok b)

/-- `getStarsByWalletAddress(address)`: for `i = 1 .. this.height`, decode
`this.chain[i]` with `getBData` and push the payload when its `owner` equals
the address. -/
def getStarsByWalletAddress (s : ChainState) (address : String) : List BData :=
  (List.range' 1 s.height.toNat).foldl
    (fun stars i =>
      let blockData := getBData (s.chain.getD i default)
      if blockData.owner == some address then stars ++ [blockData] else stars)
    []

/-- The per-index error list of `validateChain`: the corrupt-block error when
the self-check fails, followed by the broken-link error when the back link
does not match the hash of the predecessor. -/
def blockErrors (H : BlockFields → String) (s : ChainState) (i : Nat) : List ChainError :=
  (if blockValidate H (s.chain.getD i default) then []
   else [ChainError.corruptBlock (s.chain.getD i default).hash]) ++
  (if (s.chain.getD i default).previousBlockHash = some (s.chain.getD (i - 1) default).hash then []
   else [ChainError.brokenLink (s.chain.getD i default).hash])

/-- A concrete digest function used to instantiate the abstract hash in
closed examples. -/
def Hc : BlockFields → String :=
  fun _ => "h"

/-- A concrete digest function that makes distinct heights hash differently,
for examples where links matter. -/
def Hn : BlockFields → String :=
  fun f => String.append "h" (toString f.height)

/-- A concrete well-formed four-block chain state with star blocks owned by
two different addresses, used to instantiate theorems with hypotheses. -/
def S8 : ChainState :=
  ⟨[⟨0, "t0", BData.genesis, none, "h0"⟩,
    ⟨1, "t1", BData.star "a" "s1", some "h0", "h1"⟩,
    ⟨2, "t2", BData.star "b" "s2", some "h1", "h2"⟩,
    ⟨3, "t3", BData.star "a" "s3", some "h2", "h3"⟩], 3⟩

/-- Folding a pure list-append accumulator is concatenation in traversal
order. -/
theorem foldl_append_eq_flatMap {α β : Type} (f : α → List β) (l : List α)
    (init : List β) :
    l.foldl (fun acc i => acc ++ f i) init = init ++ l.flatMap f := by
  induction l generalizing init with
  | nil => simp
  | cons a l ih => simp [List.foldl_cons, ih, List.flatMap_cons]

/-- The loop body of `validateChain` appends exactly the per-index error
list `blockErrors`. -/
theorem validateChain_body_eq (H : BlockFields → String) (s : ChainState)
    (acc : List ChainError) (i : Nat) :
    (let errorLog1 :=
      if ¬ blockValidate H (s.chain.getD i default) then
        acc ++ [ChainError.corruptBlock (s.chain.getD i default).hash]
      else acc
     if (s.chain.getD i default).previousBlockHash ≠ some (s.chain.getD (i - 1) default).hash then
       errorLog1 ++ [ChainError.brokenLink (s.chain.getD i default).hash]
     else errorLog1) = acc ++ blockErrors H s i := by
  simp only [blockErrors]
  split_ifs with h1 h2 h3 h4 <;> simp_all

/-- C3: `validateChain` accumulates, without short-circuiting and in
ascending height order (indices `1, 2, …, height` — the genesis block at
index 0 is exempt), for each block first the corrupt-block error when its
self-check fails and then the broken-link error when its back link differs
from the hash of its predecessor; the result is the full concatenated defect
list of one pass. -/
theorem validateChain_complete (H : BlockFields → String) (s : ChainState) :
    validateChain H s = (List.range' 1 s.height.toNat).flatMap (blockErrors H s) := by
  have hbody : (fun (errorLog : List ChainError) (i : Nat) =>
      let errorLog1 :=
        if ¬ blockValidate H (s.chain.getD i default) then
          errorLog ++ [ChainError.corruptBlock (s.chain.getD i default).hash]
        else errorLog
      if (s.chain.getD i default).previousBlockHash ≠ some (s.chain.getD (i - 1) default).hash then
        errorLog1 ++ [ChainError.brokenLink (s.chain.getD i default).hash]
      else errorLog1) = fun acc i => acc ++ blockErrors H s i := by
    funext acc i
    exact validateChain_body_eq H s acc i
  rw [validateChain, hbody, foldl_append_eq_flatMap]
  simp

/-- The construction path produces exactly the singleton genesis chain at
height 0. -/
theorem newBlockchain_eq (H : BlockFields → String) (time : String) :
    newBlockchain H time = ⟨[genesisBlock H time], 0⟩ := rfl

/-- A successful `_addBlock` call means validation found no defect, the block
was sealed from the incremented height, the given time and payload, the hash
of the last block, and the digest of those fields, and the state is the old
chain with the sealed block pushed. -/
theorem _addBlock_ok (H : BlockFields → String) (s : ChainState) (body : BData)
    (time : String) (s' : ChainState) (b : Block)
    (h : _addBlock H s body time = Except.ok (s', b)) :
    validateChain H s = [] ∧
    b = ⟨s.height + 1, time, body,
      (if s.height + 1 > 0 then some ((s.chain.getD s.height.toNat default).hash) else none),
      H ⟨s.height + 1, time, body,
        (if s.height + 1 > 0 then some ((s.chain.getD s.height.toNat default).hash)
         else none)⟩⟩ ∧
    s' = ⟨s.chain ++ [b], s.height + 1⟩ := by
  simp only [_addBlock, Int.add_sub_cancel] at h
  split at h
  · exact absurd h (by simp)
  · rename_i hlen
    have hv : validateChain H s = [] := by
      by_contra hne
      exact hlen (List.length_pos.mpr hne)
    injection h with h1
    have hs' := congrArg Prod.fst h1
    have hb := congrArg Prod.snd h1
    simp only at hs' hb
    exact ⟨hv, hb.symm, hs'.symm ▸ (by rw [hb])⟩

/-- C1: in every chain state reachable by successful appends, the cached
height equals the chain length minus one (so after `n` successful appends
the height is `n - 1`), each stored block height equals its index in the
chain, and every block from index 1 on links back to the hash of its
predecessor. -/
theorem chain_invariant (H : BlockFields → String) (n : Nat) (s : ChainState)
    (h : ReachableN H n s) :
    s.chain.length = n ∧ s.height = (n : Int) - 1 ∧
    (∀ i : Nat, i < s.chain.length → (s.chain.getD i default).height = (i : Int)) ∧
    (∀ i : Nat, 1 ≤ i → i < s.chain.length →
      (s.chain.getD i default).previousBlockHash =
        some ((s.chain.getD (i - 1) default).hash)) := by
  induction h with
  | init time =>
    refine ⟨rfl, rfl, ?_, ?_⟩
    · intro i hi
      rw [newBlockchain_eq] at hi ⊢
      simp only [List.length_singleton] at hi
      have hi0 : i = 0 := by omega
      subst hi0
      rfl
    · intro i h1 hi
      rw [newBlockchain_eq] at hi
      simp only [List.length_singleton] at hi
      omega
  | step n s body time s' b hr haddb ih =>
    obtain ⟨ih1, ih2, ih3, ih4⟩ := ih
    obtain ⟨hv, hb, hs'⟩ := _addBlock_ok H s body time s' b haddb
    subst hs'
    refine ⟨?_, ?_, ?_, ?_⟩
    · simp [List.length_append, ih1]
    · simp only []
      push_cast
      omega
    · intro i hi
      simp only [List.length_append, List.length_singleton, ih1] at hi ⊢
      by_cases hlt : i < n
      · rw [List.getD_append _ _ _ _ (by omega : i < s.chain.length)]
        exact ih3 i (by omega)
      · have hie : i = n := by omega
        subst hie
        rw [List.getD_append_right _ _ _ _ (by omega : s.chain.length ≤ i),
          (by omega : i - s.chain.length = 0), List.getD_cons_zero, hb]
        simp only []
        omega
    · intro i h1 hi
      simp only [List.length_append, List.length_singleton, ih1] at hi ⊢
      by_cases hlt : i < n
      · rw [List.getD_append _ _ _ _ (by omega : i < s.chain.length),
          List.getD_append _ _ _ _ (by omega : i - 1 < s.chain.length)]
        exact ih4 i h1 (by omega)
      · have hie : i = n := by omega
        subst hie
        rw [List.getD_append_right _ _ _ _ (by omega : s.chain.length ≤ i),
          (by omega : i - s.chain.length = 0), List.getD_cons_zero,
          List.getD_append _ _ _ _ (by omega : i - 1 < s.chain.length), hb]
        simp only []
        rw [if_pos (by omega : s.height + 1 > 0),
          (by omega : s.height.toNat = i - 1)]

/-- C2: every block of a chain state reachable by successful appends is
sealed self-consistently: its stored `hash` is the digest of its stored
fields excluding the hash itself, so the recomputation check
`blockValidate` succeeds on it. -/
theorem hash_self_consistency (H : BlockFields → String) (n : Nat) (s : ChainState)
    (h : ReachableN H n s) :
    ∀ b ∈ s.chain, b.hash = H b.fields ∧ blockValidate H b = true := by
  induction h with
  | init time =>
    intro b hb
    rw [newBlockchain_eq] at hb
    have hbe : b = genesisBlock H time := by simpa using hb
    subst hbe
    exact ⟨by simp [genesisBlock, Block.fields], by simp [blockValidate, genesisBlock, Block.fields]⟩
  | step n s body time s' b hr haddb ih =>
    obtain ⟨hv, hb, hs'⟩ := _addBlock_ok H s body time s' b haddb
    subst hs'
    intro x hx
    rw [List.mem_append] at hx
    cases hx with
    | inl hmem => exact ih x hmem
    | inr hmem =>
      have hxe : x = b := by simpa using hmem
      subst hxe
      rw [hb]
      exact ⟨by simp [Block.fields], by simp [blockValidate, Block.fields]⟩

/-- Closed instance of `chain_invariant`: the freshly constructed blockchain
reached by one successful append has one block and height 0. -/
theorem chain_invariant_witness :
    (newBlockchain Hc "t").chain.length = 1 ∧
      (newBlockchain Hc "t").height = (1 : Int) - 1 :=
  ⟨(chain_invariant Hc 1 (newBlockchain Hc "t") (ReachableN.init "t")).1,
   (chain_invariant Hc 1 (newBlockchain Hc "t") (ReachableN.init "t")).2.1⟩

/-- Closed instance of `hash_self_consistency` at the genesis block of a
freshly constructed blockchain. -/
theorem hash_self_consistency_witness :
    (genesisBlock Hc "t").hash = Hc (genesisBlock Hc "t").fields ∧
      blockValidate Hc (genesisBlock Hc "t") = true :=
  hash_self_consistency Hc 1 (newBlockchain Hc "t") (ReachableN.init "t")
    (genesisBlock Hc "t") (by rw [newBlockchain_eq]; exact List.mem_singleton_self _)

/-- With a numerically parsed embedded timestamp, the freshness guard of
`submitStar` is exactly the comparison `currentTime - t > 300`. -/
theorem timedOut_some (currentTime t : Int) :
    timedOut currentTime (some t) = decide (currentTime - t > 300) := rfl

/-- With a non-numeric embedded timestamp (`NaN`), the freshness guard of
`submitStar` never fires. -/
theorem timedOut_none (currentTime : Int) :
    timedOut currentTime none = false := rfl

/-- C4: `submitStar` is atomic on failure: whenever it rejects — expired
challenge, failed signature verification, or chain validation finding
defects before the append — the chain state it leaves behind is exactly the
input state, with no block added and no field changed. -/
theorem submitStar_error_atomic (H : BlockFields → String)
    (verify : String → String → String → Bool) (s : ChainState)
    (address message signature star : String) (currentTime : Int)
    (blockTime : String) (e : SubmitError)
    (h : (submitStar H verify s address message signature star currentTime blockTime).2 =
      Except.error e) :
    (submitStar H verify s address message signature star currentTime blockTime).1 = s := by
  by_cases h1 : timedOut currentTime (messageTime message)
  · simp [submitStar, h1]
  · by_cases h2 : verify message address signature
    · cases h3 : _addBlock H s (BData.star address star) blockTime with
      | error err => simp [submitStar, h1, h2, h3]
      | ok p =>
        exfalso
        cases p with
        | mk s' b => simp [submitStar, h1, h2, h3] at h
    · simp [submitStar, h1, h2]

/-- Closed instance of `submitStar_error_atomic`: an expired submission
(elapsed 301 seconds) leaves the freshly constructed chain untouched. -/
theorem submitStar_error_atomic_witness :
    (submitStar Hc (fun _ _ _ => true) (newBlockchain Hc "t0") "addr"
      "addr:100:starRegistry" "sig" "star" 401 "t1").1 = newBlockchain Hc "t0" :=
  submitStar_error_atomic Hc (fun _ _ _ => true) (newBlockchain Hc "t0") "addr"
    "addr:100:starRegistry" "sig" "star" 401 "t1" SubmitError.timedOut rfl

/-- C5: given a message whose embedded timestamp parses to `t`, `submitStar`
rejects with the challenge-expired error exactly when the elapsed time
`currentTime - t` is strictly greater than 300 seconds; in particular an
elapsed time of 299 passes the freshness check, 301 fails it, and a negative
elapsed time (message from the future) passes — there is no lower bound. -/
theorem submitStar_freshness (H : BlockFields → String)
    (verify : String → String → String → Bool) (s : ChainState)
    (address message signature star : String) (currentTime : Int)
    (blockTime : String) (t : Int)
    (hparse : messageTime message = some t) :
    (submitStar H verify s address message signature star currentTime blockTime).2 =
        Except.error SubmitError.timedOut ↔ currentTime - t > 300 := by
  by_cases hgt : currentTime - t > 300
  · have hto : timedOut currentTime (messageTime message) = true := by
      rw [hparse, timedOut_some]
      simpa using hgt
    simp [submitStar, hto, hgt]
  · have hto : timedOut currentTime (messageTime message) = false := by
      rw [hparse, timedOut_some]
      simpa using hgt
    by_cases hv : verify message address signature
    · cases h3 : _addBlock H s (BData.star address star) blockTime with
      | error err => simp [submitStar, hto, hv, h3, hgt]
      | ok p =>
        cases p with
        | mk s' b => simp [submitStar, hto, hv, h3, hgt]
    · simp [submitStar, hto, hv, hgt]

/-- Closed instance of `submitStar_freshness`: with embedded timestamp 100,
the call at current time 401 (elapsed 301) rejects as expired, and the call
at current time 399 (elapsed 299) does not. -/
theorem submitStar_freshness_witness :
    ((submitStar Hc (fun _ _ _ => true) (newBlockchain Hc "t0") "addr"
        "addr:100:starRegistry" "sig" "star" 401 "t1").2 =
      Except.error SubmitError.timedOut) ∧
    ¬ ((submitStar Hc (fun _ _ _ => true) (newBlockchain Hc "t0") "addr"
        "addr:100:starRegistry" "sig" "star" 399 "t1").2 =
      Except.error SubmitError.timedOut) :=
  ⟨(submitStar_freshness Hc (fun _ _ _ => true) (newBlockchain Hc "t0") "addr"
      "addr:100:starRegistry" "sig" "star" 401 "t1" 100 rfl).mpr (by decide),
   fun hc => absurd ((submitStar_freshness Hc (fun _ _ _ => true) (newBlockchain Hc "t0") "addr"
      "addr:100:starRegistry" "sig" "star" 399 "t1" 100 rfl).mp hc) (by decide)⟩

/-- On a chain that validates cleanly, `_addBlock` always succeeds. -/
theorem _addBlock_of_valid (H : BlockFields → String) (s : ChainState)
    (body : BData) (time : String) (hvalid : validateChain H s = []) :
    ∃ p, _addBlock H s body time = Except.ok p := by
  cases h : _addBlock H s body time with
  | ok p => exact ⟨p, rfl⟩
  | error e =>
    exfalso
    simp [_addBlock, hvalid] at h

/-- C6 counterexample: the message `addr::starRegistry` has an empty (hence
non-numeric) second colon-delimited field, yet `submitStar` does not fail
with any malformed-message error — with an accepting signature oracle it
appends a block and succeeds, so the message is not rejected before
signature verification. -/
theorem malformed_message_accepted_cex :
    messageTime "addr::starRegistry" = none ∧
    (submitStar Hc (fun _ _ _ => true) (newBlockchain Hc "t0") "addr"
        "addr::starRegistry" "sig" "star" 1000 "t1").2 =
      Except.ok ⟨1, "t1", BData.star "addr" "star", some "h", "h"⟩ :=
  ⟨rfl, rfl⟩

/-- C6 (amended): a message whose second colon-delimited field is absent or
non-numeric is not rejected by any timestamp check of `submitStar` (there is
no malformed-message error in the code; the `NaN` comparison makes the
freshness guard pass), and the call proceeds to signature verification: when
the signature oracle rejects, the failure is the signature-verification
error. -/
theorem submitStar_malformed_not_rejected (H : BlockFields → String)
    (verify : String → String → String → Bool) (s : ChainState)
    (address message signature star : String) (currentTime : Int)
    (blockTime : String)
    (hparse : messageTime message = none) :
    (submitStar H verify s address message signature star currentTime blockTime).2 ≠
      Except.error SubmitError.timedOut ∧
    (verify message address signature = false →
      (submitStar H verify s address message signature star currentTime blockTime).2 =
        Except.error SubmitError.verifyFailed) := by
  have hto : timedOut currentTime (messageTime message) = false := by
    rw [hparse]
    rfl
  constructor
  · by_cases hv : verify message address signature
    · cases h3 : _addBlock H s (BData.star address star) blockTime with
      | error err => simp [submitStar, hto, hv, h3]
      | ok p =>
        cases p with
        | mk s' b => simp [submitStar, hto, hv, h3]
    · simp [submitStar, hto, hv]
  · intro hv
    simp [submitStar, hto, hv]

/-- Closed instance of `submitStar_malformed_not_rejected`: the malformed
message with a rejecting signature oracle fails with the
signature-verification error, not a timestamp error. -/
theorem submitStar_malformed_not_rejected_witness :
    (submitStar Hc (fun _ _ _ => false) (newBlockchain Hc "t0") "addr"
        "addr::starRegistry" "sig" "star" 1000 "t1").2 =
      Except.error SubmitError.verifyFailed :=
  (submitStar_malformed_not_rejected Hc (fun _ _ _ => false) (newBlockchain Hc "t0")
    "addr" "addr::starRegistry" "sig" "star" 1000 "t1" rfl).2 rfl

/-- C10: for a message whose second colon-delimited field is absent or
non-numeric, the freshness comparison against the `NaN` timestamp is false,
so on a structurally valid chain the outcome of `submitStar` is decided
entirely by signature verification and the append: it never fails with the
timestamp error; it appends and returns a block when the oracle accepts, and
fails with the signature-verification error when the oracle rejects. -/
theorem submitStar_malformed_outcome (H : BlockFields → String)
    (verify : String → String → String → Bool) (s : ChainState)
    (address message signature star : String) (currentTime : Int)
    (blockTime : String)
    (hparse : messageTime message = none)
    (hvalid : validateChain H s = []) :
    (submitStar H verify s address message signature star currentTime blockTime).2 ≠
      Except.error SubmitError.timedOut ∧
    (verify message address signature = true →
      ∃ b, (submitStar H verify s address message signature star currentTime blockTime).2 =
        Except.ok b) ∧
    (verify message address signature = false →
      (submitStar H verify s address message signature star currentTime blockTime).2 =
        Except.error SubmitError.verifyFailed) := by
  have hto : timedOut currentTime (messageTime message) = false := by
    rw [hparse]
    rfl
  obtain ⟨p, hp⟩ := _addBlock_of_valid H s (BData.star address star) blockTime hvalid
  refine ⟨?_, ?_, ?_⟩
  · by_cases hv : verify message address signature
    · cases p with
      | mk s' b => simp [submitStar, hto, hv, hp]
    · simp [submitStar, hto, hv]
  · intro hv
    cases p with
    | mk s' b =>
      refine ⟨b, ?_⟩
      simp [submitStar, hto, hv, hp]
  · intro hv
    simp [submitStar, hto, hv]

/-- Closed instance of `submitStar_malformed_outcome`: on the fresh chain,
the malformed message with a rejecting oracle yields exactly the
signature-verification error. -/
theorem submitStar_malformed_outcome_witness :
    (submitStar Hc (fun _ _ _ => false) (newBlockchain Hc "t0") "addr"
        "addr:xyz:starRegistry" "sig" "star" 1000 "t1").2 =
      Except.error SubmitError.verifyFailed :=
  (submitStar_malformed_outcome Hc (fun _ _ _ => false) (newBlockchain Hc "t0")
    "addr" "addr:xyz:starRegistry" "sig" "star" 1000 "t1" rfl rfl).2.2 rfl

/-- C7: constructing the blockchain against the empty state (height -1)
creates, through the same `_addBlock` append path as star blocks, exactly
one genesis block at height 0 carrying the fixed genesis payload; running
`initializeChain` on an already initialized state (height different from -1)
adds no block, so the height-0 genesis marker appears exactly once. -/
theorem genesis_initialization (H : BlockFields → String) (time : String) :
    _addBlock H constructorState BData.genesis time =
      Except.ok (⟨[genesisBlock H time], 0⟩, genesisBlock H time) ∧
    newBlockchain H time = ⟨[genesisBlock H time], 0⟩ ∧
    (genesisBlock H time).height = 0 ∧
    (genesisBlock H time).body = BData.genesis ∧
    (∀ s : ChainState, s.height ≠ -1 → initializeChain H s time = s) ∧
    (newBlockchain H time).chain.countP
      (fun b => b.height == 0 && b.body == BData.genesis) = 1 := by
  refine ⟨rfl, rfl, rfl, rfl, ?_, ?_⟩
  · intro s hs
    simp [initializeChain, hs]
  · rw [newBlockchain_eq]
    simp [genesisBlock, List.countP_cons]

/-- Closed instance of `genesis_initialization`: re-running initialization on
an already initialized state (height 5) changes nothing. -/
theorem genesis_initialization_witness :
    initializeChain Hc ⟨[], 5⟩ "t" = ⟨[], 5⟩ :=
  (genesis_initialization Hc "t").2.2.2.2.1 ⟨[], 5⟩ (by decide)

/-- Folding a filtered push accumulator is the filtered map of the traversed
list, in traversal order. -/
theorem foldl_filter_append (p : BData → Bool) (f : Nat → BData) (l : List Nat)
    (init : List BData) :
    l.foldl (fun acc i => if p (f i) then acc ++ [f i] else acc) init =
      init ++ (l.map f).filter p := by
  induction l generalizing init with
  | nil => simp
  | cons a l ih =>
    by_cases hpa : p (f a) = true <;>
      simp [List.foldl_cons, List.filter_cons, hpa, ih]

/-- Indexing a list by `getD` over all positions recovers the list. -/
theorem map_getD_range (d : Block) (l : List Block) :
    (List.range l.length).map (fun i => l.getD i d) = l := by
  induction l with
  | nil => rfl
  | cons x xs ih =>
    rw [List.length_cons, List.range_succ_eq_map]
    simp only [List.map_cons, List.getD_cons_zero, List.map_map]
    have hfs : ((fun i => (x :: xs).getD i d) ∘ Nat.succ) = fun i => xs.getD i d := by
      funext i
      simp [List.getD_cons_succ]
    rw [hfs, ih]

/-- Indexing positions `1, …, n` of a list of length `n + 1` by `getD`
recovers its tail. -/
theorem range'_map_getD (d : Block) (x : Block) (xs : List Block) :
    (List.range' 1 xs.length).map (fun i => (x :: xs).getD i d) = xs := by
  rw [List.range'_eq_map_range, List.map_map]
  have hfs : ((fun i => (x :: xs).getD i d) ∘ fun j => 1 + j) = fun i => xs.getD i d := by
    funext i
    simp [Nat.add_comm 1 i, List.getD_cons_succ]
  rw [hfs, map_getD_range]

/-- On a well-formed state (chain length = height + 1), the scan of indices
`1, …, height` visits exactly the blocks after the genesis block. -/
theorem chain_scan_eq (d : Block) (s : ChainState)
    (hwf : s.chain.length = (s.height + 1).toNat) :
    (List.range' 1 s.height.toNat).map (fun i => s.chain.getD i d) = s.chain.drop 1 := by
  cases hc : s.chain with
  | nil =>
    have h0 : s.height.toNat = 0 := by
      rw [hc] at hwf
      simp at hwf
      omega
    rw [h0]
    simp
  | cons x xs =>
    have hlen : xs.length = s.height.toNat := by
      rw [hc] at hwf
      simp at hwf
      omega
    rw [← hlen]
    exact range'_map_getD d x xs

/-- C8: on a well-formed chain, `getStarsByWalletAddress` scans only the
blocks after the genesis block (heights 1 and up), decodes each payload, and
returns exactly the decoded payloads whose owner is the given address, in
chain order; every payload it returns belongs to that owner, so payloads of
other owners never appear. -/
theorem getStars_spec (s : ChainState) (address : String)
    (hwf : s.chain.length = (s.height + 1).toNat) :
    getStarsByWalletAddress s address =
      ((s.chain.drop 1).map getBData).filter (fun bd => bd.owner == some address) ∧
    ∀ bd ∈ getStarsByWalletAddress s address, bd.owner = some address := by
  have heq : getStarsByWalletAddress s address =
      ((s.chain.drop 1).map getBData).filter (fun bd => bd.owner == some address) := by
    have hshape : getStarsByWalletAddress s address =
        (List.range' 1 s.height.toNat).foldl
          (fun acc i =>
            if (fun bd => bd.owner == some address)
                ((fun j => getBData (s.chain.getD j default)) i) then
              acc ++ [(fun j => getBData (s.chain.getD j default)) i]
            else acc) [] := rfl
    rw [hshape, foldl_filter_append (fun bd => bd.owner == some address)
      (fun j => getBData (s.chain.getD j default)) (List.range' 1 s.height.toNat) []]
    have hmap : ((List.range' 1 s.height.toNat).map fun j => getBData (s.chain.getD j default)) =
        ((List.range' 1 s.height.toNat).map fun j => s.chain.getD j default).map getBData := by
      rw [List.map_map]
      rfl
    rw [hmap, chain_scan_eq default s hwf]
    simp
  refine ⟨heq, ?_⟩
  intro bd hbd
  rw [heq] at hbd
  have := (List.mem_filter.mp hbd).2
  simpa using this

/-- Closed instance of `getStars_spec`: on the concrete four-block chain,
the listing for address `a` is its two star payloads in append order, with
the block of address `b` absent. -/
theorem getStars_spec_witness :
    getStarsByWalletAddress S8 "a" = [BData.star "a" "s1", BData.star "a" "s3"] := by
  have h := (getStars_spec S8 "a" (by decide)).1
  rw [h]
  rfl
